import Mathlib

/-!
Verification of the typed-intl language-tag and translation-resolution core.

The source is TypeScript.  Strings are modelled as Lean `String`s over ASCII
(the library only ever feeds ASCII tag text to the case conversions), JS
`undefined`-able fields as `Option String`, and JS truthiness on strings
(where the empty string is falsy) by the explicit `truthyOpt` / `transformOpt`
helpers.  The float division in `equality` is modelled with exact rationals:
every score is a quotient of naturals bounded by 63, and two distinct such
rationals differ by at least 1/3969, far above double-precision rounding
error, so order and equality of scores coincide with the JS floats.
-/

namespace TypedIntl

/-- ASCII lower-casing of a character, as `String.prototype.toLowerCase`
acts on the ASCII range. -/
def asciiLower (c : Char) : Char :=
  if 'A' ≤ c ∧ c ≤ 'Z' then Char.ofNat (c.toNat + 32) else c

/-- ASCII upper-casing of a character. -/
def asciiUpper (c : Char) : Char :=
  if 'a' ≤ c ∧ c ≤ 'z' then Char.ofNat (c.toNat - 32) else c

/-- Lower-case an entire string. -/
def lowerStr (s : String) : String := String.mk (s.data.map asciiLower)

/-- Upper-case an entire string. -/
def upperStr (s : String) : String := String.mk (s.data.map asciiUpper)

/-- Title-case: first character upper, remainder lower
(`x[0].toUpperCase() + x.substr(1).toLowerCase()`). -/
def titleStr (s : String) : String :=
  match s.data with
  | [] => ""
  | c :: cs => String.mk (asciiUpper c :: cs.map asciiLower)

/-- `[a-z]` on the (already lower-cased) tag text. -/
def isAlpha (c : Char) : Bool := 'a' ≤ c ∧ c ≤ 'z'

/-- `[0-9]`. -/
def isDigit (c : Char) : Bool := '0' ≤ c ∧ c ≤ '9'

/-- `[a-z0-9]`. -/
def isAlnum (c : Char) : Bool := isAlpha c || isDigit c

/-- Consume exactly `n` characters satisfying `p`, returning the consumed
prefix and the remainder. -/
def takeExact (p : Char → Bool) (n : Nat) (s : List Char) :
    Option (List Char × List Char) :=
  let pre := s.take n
  if pre.length = n ∧ pre.all p then some (pre, s.drop n) else none

/-- Consume a dash followed by exactly `n` characters satisfying `p`;
the returned capture includes the dash (as the regex groups do). -/
def dashTake (p : Char → Bool) (n : Nat) : List Char → Option (List Char × List Char)
  | c :: s =>
    if c = '-' then
      match takeExact p n s with
      | some (pre, rest) => some ('-' :: pre, rest)
      | none => none
    else none
  | [] => none

/-- `-[0-9][a-z0-9]{3}` (second alternative of the variant group);
capture includes the dash. -/
def dashDigitAlnum3 : List Char → Option (List Char × List Char)
  | c :: d :: s =>
    if c = '-' ∧ isDigit d ∧ (s.take 3).length = 3 ∧ (s.take 3).all isAlnum then
      some ('-' :: d :: s.take 3, s.drop 3)
    else none
  | _ => none

/-- Candidate (capture, remainder) pairs for an optional group, given the
ordered list of its present-alternatives; absence is tried last, as a greedy
`(...)?` does. -/
def optCands (alts : List (Option (List Char × List Char))) (s : List Char) :
    List (Option (List Char) × List Char) :=
  (alts.filterMap id).map (fun pr => (some pr.1, pr.2)) ++ [(none, s)]

/-- Candidates for `([a-z]{2,3})` — greedy, so three letters are tried first. -/
def langCands (s : List Char) : List (List Char × List Char) :=
  [takeExact isAlpha 3 s, takeExact isAlpha 2 s].filterMap id

/-- Candidates for the extended-language group `(-[a-z]{3})?`. -/
def extLangCands (s : List Char) : List (Option (List Char) × List Char) :=
  optCands [dashTake isAlpha 3 s] s

/-- Candidates for the script group `(-[a-z]{4})?`. -/
def scriptCands (s : List Char) : List (Option (List Char) × List Char) :=
  optCands [dashTake isAlpha 4 s] s

/-- Candidates for the region group of the source regex,
`(-[a-z]{2}|[0-9]{3})?` — note the second alternative has no dash. -/
def regionCands (s : List Char) : List (Option (List Char) × List Char) :=
  optCands [dashTake isAlpha 2 s, takeExact isDigit 3 s] s

/-- Candidates for the variant group
`((?:-[a-z]{5,8})|(?:-[0-9][a-z0-9]{3}))?` — greedy, longest first. -/
def variantCands (s : List Char) : List (Option (List Char) × List Char) :=
  optCands [dashTake isAlpha 8 s, dashTake isAlpha 7 s, dashTake isAlpha 6 s,
            dashTake isAlpha 5 s, dashDigitAlnum3 s] s

/-- Does `s` consist of one or more `-[a-z0-9]{1,8}` segments, consuming all
of `s`?  Fuel-indexed; `s.length` is always sufficient fuel since every
segment consumes at least two characters. -/
def segsPlus : Nat → List Char → Bool
  | 0, _ => false
  | fuel + 1, c :: s =>
    c = '-' &&
      (List.range 8).any (fun k =>
        match takeExact isAlnum (k + 1) s with
        | some (_, rest) => rest.isEmpty || segsPlus fuel rest
        | none => false)
  | _ + 1, [] => false

/-- Does `s` match the whole extension group `-[0-9a-z](?:-[a-z0-9]{1,8})+`? -/
def extMatch : List Char → Bool
  | c :: d :: s => c = '-' && isAlnum d && segsPlus s.length s
  | _ => false

/-- The six capture groups of the tag regex (raw captures, dashes included
where the group pattern has one). -/
structure TagGroups where
  lang : List Char
  extLang : Option (List Char)
  script : Option (List Char)
  region : Option (List Char)
  variant : Option (List Char)
  extension : Option (List Char)
deriving DecidableEq, Repr

/-- Backtracking match of the anchored tag regex

`^([a-z]{2,3})(-[a-z]{3})?(-[a-z]{4})?(-[a-z]{2}|[0-9]{3})?((?:-[a-z]{5,8})|(?:-[0-9][a-z0-9]{3}))?(-[0-9a-z](?:-[a-z0-9]{1,8})+)?$`

on the already lower-cased character list.  Candidates are tried in the JS
backtracking order (greedy quantifiers, alternatives left to right), and the
first full match wins, which reproduces `RegExp.exec`'s captures.  The final
extension group is followed only by the anchor, so it either captures the
whole remainder or is absent with an empty remainder — the two cases are
mutually exclusive and need no ordering. -/
def tryParse (s : List Char) : Option TagGroups :=
  (langCands s).findSome? fun lpr =>
  (extLangCands lpr.2).findSome? fun epr =>
  (scriptCands epr.2).findSome? fun spr =>
  (regionCands spr.2).findSome? fun rpr =>
  (variantCands rpr.2).findSome? fun vpr =>
  if vpr.2 = [] then
    some ⟨lpr.1, epr.1, spr.1, rpr.1, vpr.1, none⟩
  else if extMatch vpr.2 then
    some ⟨lpr.1, epr.1, spr.1, rpr.1, vpr.1, some vpr.2⟩
  else none

/-- Whether the source pattern accepts the string (after the `toLowerCase`
normalization `LanguageTags.fromString` applies before `pattern.exec`). -/
def codeAccepts (s : String) : Bool := (tryParse (lowerStr s).data).isSome

/-- Modelled from the spec: the region production of the section 4.1 grammar,
`region = "-" (2 ALPHA | 3 DIGIT)` — the dash precedes both alternatives. -/
def specRegionCands (s : List Char) : List (Option (List Char) × List Char) :=
  optCands [dashTake isAlpha 2 s, dashTake isDigit 3 s] s

/-- Modelled from the spec: the variant production of the section 4.1 grammar,
`variant = "-" (5*8 ALPHANUM | DIGIT 3ALPHANUM)` — the long alternative
admits digits. -/
def specVariantCands (s : List Char) : List (Option (List Char) × List Char) :=
  optCands [dashTake isAlnum 8 s, dashTake isAlnum 7 s, dashTake isAlnum 6 s,
            dashTake isAlnum 5 s, dashDigitAlnum3 s] s

/-- Modelled from the spec: acceptance by the whole BCP-47-subset grammar of
section 4.1 (case-insensitively, anchored).  Language, extended language,
script and extension coincide with the source pattern; region and variant
use the spec's dashed/alphanumeric productions. -/
def specGrammarAccepts (s : String) : Bool :=
  let l := (lowerStr s).data
  ((langCands l).findSome? fun lpr =>
   (extLangCands lpr.2).findSome? fun epr =>
   (scriptCands epr.2).findSome? fun spr =>
   (specRegionCands spr.2).findSome? fun rpr =>
   (specVariantCands rpr.2).findSome? fun vpr =>
   if vpr.2 = [] then some () else if extMatch vpr.2 then some () else
   (none : Option Unit)).isSome

/-- A language tag record: the canonical subtags stored by
`LanguageTagImpl`.  The `tag` text is derived by `LanguageTag.tag` below,
exactly as the constructor assembles it. -/
structure LanguageTag where
  language : String
  extendedLanguage : Option String
  script : Option String
  region : Option String
  variant : Option String
  extension : Option String
deriving DecidableEq, Repr

/-- JS truthiness of a `string | undefined` value: `undefined` and the empty
string are falsy. -/
def truthyOpt : Option String → Bool
  | none => false
  | some s => s ≠ ""

/-- The constructor helper `transform(t, f) = t ? f(t) : undefined`. -/
def transformOpt (f : String → String) : Option String → Option String
  | none => none
  | some s => if s = "" then none else some (f s)

/-- The `LanguageTagImpl` constructor: normalizes casing per subtag
(language, extended language, variant, extension lower; script title;
region upper). -/
def mkImpl (language : String) (extendedLanguage script region variant extension :
    Option String) : LanguageTag where
  language := lowerStr language
  extendedLanguage := transformOpt lowerStr extendedLanguage
  script := transformOpt titleStr script
  region := transformOpt upperStr region
  variant := transformOpt lowerStr variant
  extension := transformOpt lowerStr extension

/-- The constructor helper `subtag(t) = t ? '-' + t : ''`. -/
def subtagStr : Option String → String
  | none => ""
  | some s => if s = "" then "" else "-" ++ s

/-- The `tag` field assembled by the constructor from the normalized
subtags. -/
def LanguageTag.tag (t : LanguageTag) : String :=
  t.language ++ subtagStr t.extendedLanguage ++ subtagStr t.script ++
    subtagStr t.region ++ subtagStr t.variant ++ subtagStr t.extension

/-- `group(m, n) = m[n] ? m[n].substr(1) : undefined`: strip the leading
character of a non-empty capture. -/
def stripHead (o : Option (List Char)) : Option String :=
  o.map fun l => String.mk (l.drop 1)

/-- Build the `LanguageTagImpl` from the regex captures, as
`createFromString` does. -/
def mkFromGroups (g : TagGroups) : LanguageTag :=
  mkImpl (String.mk g.lang) (stripHead g.extLang) (stripHead g.script)
    (stripHead g.region) (stripHead g.variant) (stripHead g.extension)

/-- Pure (interning-free) view of `languageTag : string → LanguageTag`:
lower-case, run the pattern, build the instance; `none` models the thrown
`Invalid language tag` error. -/
def parseTag (s : String) : Option LanguageTag :=
  (tryParse (lowerStr s).data).map mkFromGroups

/-- Pure view of `LanguageTags.fromSubTags`: the interning table only dedups
instances, the value built is the `LanguageTagImpl` of the given subtags. -/
def fromSubTagsPure (language : String)
    (extendedLanguage script region variant extension : Option String) :
    LanguageTag :=
  mkImpl language extendedLanguage script region variant extension

/-- `parent()`: drop the most specific present (truthy) subtag, priority
extension, variant, region, script, extended language; a bare language has
no parent.  Each `withoutX` re-runs the constructor via `fromSubTags`. -/
def parentTag (t : LanguageTag) : Option LanguageTag :=
  if truthyOpt t.extension then
    some (fromSubTagsPure t.language t.extendedLanguage t.script t.region t.variant none)
  else if truthyOpt t.variant then
    some (fromSubTagsPure t.language t.extendedLanguage t.script t.region none none)
  else if truthyOpt t.region then
    some (fromSubTagsPure t.language t.extendedLanguage t.script none none none)
  else if truthyOpt t.script then
    some (fromSubTagsPure t.language t.extendedLanguage none none none none)
  else if truthyOpt t.extendedLanguage then
    some (fromSubTagsPure t.language none none none none none)
  else none

/-- Number of present optional subtags; the parent chain strictly decreases
this measure. -/
def specificity (t : LanguageTag) : Nat :=
  t.extendedLanguage.isSome.toNat + t.script.isSome.toNat + t.region.isSome.toNat +
    t.variant.isSome.toNat + t.extension.isSome.toNat

/-- Measure of an optional tag, for the recursion of the resolution engine. -/
def pMeasure : Option LanguageTag → Nat
  | none => 0
  | some t => specificity t + 1

/-- `equality(other)`: 0 when the languages differ, otherwise the weighted
score `points / possiblePoints` with weights language 32, extended language
16, script 8, region 4, variant 2, extension 1.  `possiblePoints` adds a
weight when either side's subtag is truthy; `points` adds it when the two
sides are strictly equal (both-absent compares equal).  Modelled as an exact
rational (see the header note); the quotient is written with `Rat.divInt`,
which `equality_div_form` below proves equal to the division of the two
casts (`possiblePoints` is never zero). -/
def equality (a b : LanguageTag) : ℚ :=
  if a.language ≠ b.language then 0
  else
    let possiblePoints : Nat :=
      32 +
      (if truthyOpt a.extension || truthyOpt b.extension then 1 else 0) +
      (if truthyOpt a.variant || truthyOpt b.variant then 2 else 0) +
      (if truthyOpt a.region || truthyOpt b.region then 4 else 0) +
      (if truthyOpt a.script || truthyOpt b.script then 8 else 0) +
      (if truthyOpt a.extendedLanguage || truthyOpt b.extendedLanguage then 16 else 0)
    let points : Nat :=
      32 +
      (if a.extension = b.extension then 1 else 0) +
      (if a.variant = b.variant then 2 else 0) +
      (if a.region = b.region then 4 else 0) +
      (if a.script = b.script then 8 else 0) +
      (if a.extendedLanguage = b.extendedLanguage then 16 else 0)
    Rat.divInt points possiblePoints

/-- The score of `equality` is the plain rational division
`points / possiblePoints` of the source. -/
theorem equality_div_form (a b : LanguageTag) :
    equality a b =
      if a.language ≠ b.language then 0
      else
        ((32 +
          (if a.extension = b.extension then 1 else 0) +
          (if a.variant = b.variant then 2 else 0) +
          (if a.region = b.region then 4 else 0) +
          (if a.script = b.script then 8 else 0) +
          (if a.extendedLanguage = b.extendedLanguage then 16 else 0) : Nat) : ℚ) /
        ((32 +
          (if truthyOpt a.extension || truthyOpt b.extension then 1 else 0) +
          (if truthyOpt a.variant || truthyOpt b.variant then 2 else 0) +
          (if truthyOpt a.region || truthyOpt b.region then 4 else 0) +
          (if truthyOpt a.script || truthyOpt b.script then 8 else 0) +
          (if truthyOpt a.extendedLanguage || truthyOpt b.extendedLanguage then 16 else 0) : Nat) : ℚ) := by
  unfold equality
  split
  · rfl
  · rw [Rat.divInt_eq_div]
    push_cast
    ring

/-- One step of the `pickBestMatching` fold: replace the best candidate when
the new score strictly exceeds the best score so far. -/
def pickStep (t : LanguageTag) (best : ℚ × Option LanguageTag)
    (other : LanguageTag) : ℚ × Option LanguageTag :=
  let e := equality t other
  if best.1 < e then (e, some other) else best

/-- `pickBestMatching(others)`: fold keeping the first candidate whose score
strictly exceeds the best so far, starting from score 0 and no candidate. -/
def pickBestMatching (t : LanguageTag) (others : List LanguageTag) :
    Option LanguageTag :=
  (others.foldl (pickStep t) ((0 : ℚ), (none : Option LanguageTag))).2

/-- Message keys of the worked example (`ok`, `cancel`, `welcome`); message
objects are functions from keys, partial ones return `Option`. -/
inductive Key where
  | ok
  | cancel
  | welcome
deriving DecidableEq, Repr

/-- A total message object (the resolved messages / the default set). -/
def Msgs : Type := Key → String

/-- A partial message object (a registered translation layer), supplied as a
function of the requested language (`LocalizedMessages<Partial<M>>`). -/
def PartialMsgs : Type := LanguageTag → Key → Option String

/-- The translation map of a `TranslatorImpl`: insertion-ordered entries from
language tag to partial-messages supplier (a JS `Map`). -/
def Translations : Type := List (LanguageTag × PartialMsgs)

/-- `Map.prototype.get`. -/
def lookupEntry (ts : Translations) (l : LanguageTag) : Option PartialMsgs :=
  (ts.find? fun e => e.1 = l).map fun e => e.2

/-- `Map.prototype.set`: replace in place when the key exists, else append. -/
def setEntry (ts : Translations) (l : LanguageTag) (m : PartialMsgs) : Translations :=
  match ts with
  | [] => [(l, m)]
  | e :: rest => if e.1 = l then (l, m) :: rest else e :: setEntry rest l m

/-- A `TranslatorImpl`: default-messages supplier plus the translation map. -/
structure Translator where
  defaultMessages : LanguageTag → Msgs
  translations : Translations

/-- `translate(defaultMessages)`. -/
def translate (d : LanguageTag → Msgs) : Translator := ⟨d, []⟩

/-- `partiallySupporting(language, translation)`: a new translator whose map
additionally holds the entry; the receiver is not mutated. -/
def partiallySupporting (tr : Translator) (lang : LanguageTag) (m : PartialMsgs) :
    Translator :=
  ⟨tr.defaultMessages, setEntry tr.translations lang m⟩

/-- `supporting(language, translation)`: at runtime a plain delegation to
`partiallySupporting` — the full-coverage requirement exists only in the
TypeScript types, which are erased before execution, so the argument here has
the same partial-map shape. -/
def supporting (tr : Translator) (lang : LanguageTag) (m : PartialMsgs) :
    Translator :=
  partiallySupporting tr lang m

/-- `supportedLanguages = Array.from(translations.keys())`, in insertion
order. -/
def supportedLanguages (tr : Translator) : List LanguageTag :=
  tr.translations.map fun e => e.1

/-- Spread-merge of a partial layer over an accumulated message object:
keys present in the layer win. -/
def mergeMsgs (base : Msgs) (overlay : Key → Option String) : Msgs :=
  fun k => (overlay k).getD (base k)

/-- `buildRecursive(base, requestedLanguage, translationLanguage)`: walk the
generalization chain of the translation language; when a layer is registered,
merge it over the recursively built ancestor result, otherwise recurse
transparently.  The recursion is fuel-indexed to stay structural; the source
recursion always terminates within `pMeasure` steps, and
`buildRecursive_fuel_congr` below shows every fuel of at least `pMeasure`
computes the same result, so fuel 6 (an upper bound for `pMeasure`, proved in
`pMeasure_le_six`) is the source's value. -/
def buildRecursive (ts : Translations) (base : Msgs) (req : LanguageTag) :
    Nat → Option LanguageTag → Msgs
  | _, none => base
  | 0, some _ => base
  | fuel + 1, some tl =>
    match lookupEntry ts tl with
    | some tm => mergeMsgs (buildRecursive ts base req fuel (parentTag tl)) (tm req)
    | none => buildRecursive ts base req fuel (parentTag tl)

/-- `buildMessages(language)`: pick the best-matching supported language and
resolve through `buildRecursive`. -/
def buildMessages (tr : Translator) (req : LanguageTag) : Msgs :=
  buildRecursive tr.translations (tr.defaultMessages req) req 6
    (pickBestMatching req (supportedLanguages tr))

/-- The generalization chain below (and including) a translation language,
listed from the most generic ancestor down to the language itself;
fuel-indexed like `buildRecursive`. -/
def chainF : Nat → Option LanguageTag → List LanguageTag
  | _, none => []
  | 0, some _ => []
  | fuel + 1, some l => chainF fuel (parentTag l) ++ [l]

/-- Fold the registered layers of the given chain over a base message
object, most generic first, skipping unregistered links. -/
def applyLayers (ts : Translations) (req : LanguageTag) (base : Msgs)
    (layers : List LanguageTag) : Msgs :=
  layers.foldl
    (fun acc a =>
      match lookupEntry ts a with
      | some tm => mergeMsgs acc (tm req)
      | none => acc)
    base

theorem transformOpt_none (f : String → String) : transformOpt f none = none := rfl

theorem transformOpt_isSome_le (f : String → String) (x : Option String) :
    (transformOpt f x).isSome.toNat ≤ x.isSome.toNat := by
  cases x with
  | none => simp [transformOpt]
  | some s =>
    simp only [transformOpt]
    split <;> simp

theorem truthyOpt_isSome (x : Option String) (h : truthyOpt x = true) :
    x.isSome = true := by
  cases x with
  | none => simp [truthyOpt] at h
  | some s => rfl

/-- The parent of a tag is strictly less specific. -/
theorem pMeasure_parentTag_le (t : LanguageTag) :
    pMeasure (parentTag t) ≤ specificity t := by
  have hel := transformOpt_isSome_le lowerStr t.extendedLanguage
  have hsc := transformOpt_isSome_le titleStr t.script
  have hrg := transformOpt_isSome_le upperStr t.region
  have hvr := transformOpt_isSome_le lowerStr t.variant
  unfold parentTag
  split_ifs with h1 h2 h3 h4 h5
  · have h := truthyOpt_isSome _ h1
    simp only [pMeasure, specificity, fromSubTagsPure, mkImpl, h] at *
    simp only [transformOpt_none, Option.isSome_none, Bool.toNat_false, Bool.toNat_true]
    omega
  · have h := truthyOpt_isSome _ h2
    simp only [pMeasure, specificity, fromSubTagsPure, mkImpl, h] at *
    simp only [transformOpt_none, Option.isSome_none, Bool.toNat_false, Bool.toNat_true]
    omega
  · have h := truthyOpt_isSome _ h3
    simp only [pMeasure, specificity, fromSubTagsPure, mkImpl, h] at *
    simp only [transformOpt_none, Option.isSome_none, Bool.toNat_false, Bool.toNat_true]
    omega
  · have h := truthyOpt_isSome _ h4
    simp only [pMeasure, specificity, fromSubTagsPure, mkImpl, h] at *
    simp only [transformOpt_none, Option.isSome_none, Bool.toNat_false, Bool.toNat_true]
    omega
  · have h := truthyOpt_isSome _ h5
    simp only [pMeasure, specificity, fromSubTagsPure, mkImpl, h] at *
    simp only [transformOpt_none, Option.isSome_none, Bool.toNat_false, Bool.toNat_true]
    omega
  · simp [pMeasure]

/-- Six units of fuel always suffice for the resolution recursion. -/
theorem pMeasure_le_six (tl : Option LanguageTag) : pMeasure tl ≤ 6 := by
  cases tl with
  | none => simp [pMeasure]
  | some t =>
    have h1 := Bool.toNat_lt t.extendedLanguage.isSome
    have h2 := Bool.toNat_lt t.script.isSome
    have h3 := Bool.toNat_lt t.region.isSome
    have h4 := Bool.toNat_lt t.variant.isSome
    have h5 := Bool.toNat_lt t.extension.isSome
    simp only [pMeasure, specificity]
    omega

/-- The generalization chain does not depend on the fuel, as long as the fuel
covers the measure. -/
theorem chainF_congr (f g : Nat) (tl : Option LanguageTag)
    (hf : pMeasure tl ≤ f) (hg : pMeasure tl ≤ g) : chainF f tl = chainF g tl := by
  induction f generalizing g tl with
  | zero =>
    cases tl with
    | none => cases g <;> rfl
    | some l => simp [pMeasure] at hf
  | succ f ih =>
    cases tl with
    | none => cases g <;> rfl
    | some l =>
      cases g with
      | zero => simp [pMeasure] at hg
      | succ g =>
        have hp := pMeasure_parentTag_le l
        have hf' : pMeasure (parentTag l) ≤ f := by
          simp only [pMeasure] at hf; omega
        have hg' : pMeasure (parentTag l) ≤ g := by
          simp only [pMeasure] at hg; omega
        simp only [chainF]
        rw [ih g (parentTag l) hf' hg']

/-- `buildRecursive` is the fold of the registered layers of the
generalization chain, most generic ancestor first, over the base messages. -/
theorem buildRecursive_eq_applyLayers (ts : Translations) (base : Msgs)
    (req : LanguageTag) :
    ∀ fuel tl, buildRecursive ts base req fuel tl =
      applyLayers ts req base (chainF fuel tl) := by
  intro fuel
  induction fuel with
  | zero => intro tl; cases tl <;> rfl
  | succ f ih =>
    intro tl
    cases tl with
    | none => rfl
    | some l =>
      simp only [buildRecursive, chainF, applyLayers, List.foldl_append]
      cases h : lookupEntry ts l with
      | some tm => simp [h, ih (parentTag l), applyLayers]
      | none => simp [h, ih (parentTag l), applyLayers]

/-- The fueled recursion computes the source's (unbounded) recursion: any two
sufficient fuels agree. -/
theorem buildRecursive_fuel_congr (ts : Translations) (base : Msgs)
    (req : LanguageTag) (f g : Nat) (tl : Option LanguageTag)
    (hf : pMeasure tl ≤ f) (hg : pMeasure tl ≤ g) :
    buildRecursive ts base req f tl = buildRecursive ts base req g tl := by
  rw [buildRecursive_eq_applyLayers, buildRecursive_eq_applyLayers,
    chainF_congr f g tl hf hg]

/-!  The single-entry message cache of `CachedMessageProvider`.  The abstract
`buildMessages` step is modelled by an allocation counter: each invocation of
the build step returns a fresh object identity (a natural number), so
"identical object reference" is equality of identities.  The key type is kept
abstract; the source compares the cached tag with `===`, which for interned
tags is equality of the requested key. -/

/-- The cache state of one `CachedMessageProvider`: the optional
`MessageCache` pair plus the allocation counter of the modelled build step. -/
structure CacheState (α : Type) where
  cache : Option (α × Nat)
  counter : Nat
deriving Repr

/-- Result of a `messagesFor` call: the new state, the identity of the
returned messages object, and whether `buildMessages` was invoked. -/
structure CacheResult (α : Type) where
  state : CacheState α
  result : Nat
  didBuild : Bool
deriving Repr

/-- `messagesFor(language)`: return the cached object when the cached tag
equals the request, otherwise build fresh messages and replace the sole cache
entry. -/
def messagesForCached [DecidableEq α] (s : CacheState α) (t : α) : CacheResult α :=
  match s.cache with
  | some (l, m) =>
    if l = t then ⟨s, m, false⟩
    else ⟨⟨some (t, s.counter), s.counter + 1⟩, s.counter, true⟩
  | none => ⟨⟨some (t, s.counter), s.counter + 1⟩, s.counter, true⟩

/-- Well-formedness of a cache state: any cached identity was allocated. -/
def CacheWF (s : CacheState α) : Prop :=
  ∀ l m, s.cache = some (l, m) → m < s.counter

/-!  The interning registry (`LanguageTags`).  Object identity is modelled by
allocation order: `objs` is the store of created `LanguageTagImpl` instances
and `table` maps the intern key to the index of the instance, so two requests
yield the same object exactly when they yield the same index. -/

/-- The `LanguageTags` singleton's state: intern table and object store. -/
structure Registry where
  table : List (String × Nat)
  objs : List LanguageTag
deriving DecidableEq, Repr

/-- The registry before any tag was requested. -/
def emptyRegistry : Registry := ⟨[], []⟩

/-- `Map.prototype.get` on the intern table. -/
def lookupKey (table : List (String × Nat)) (k : String) : Option Nat :=
  (table.find? fun e => e.1 = k).map fun e => e.2

/-- The intern key used by `fromSubTags`: the lower-cased dash-joined
reconstruction of the supplied subtags (absent and empty ones omitted). -/
def subTagsKey (language : String)
    (extendedLanguage script region variant extension : Option String) : String :=
  let uni : Option String → String := fun o =>
    match o with
    | none => ""
    | some s => if s = "" then "" else "-" ++ lowerStr s
  lowerStr language ++ uni extendedLanguage ++ uni script ++ uni region ++
    uni variant ++ uni extension

/-- `LanguageTags.fromSubTags`: look the key up, otherwise construct and
intern a new instance; returns the registry and the object's identity. -/
def fromSubTagsReg (r : Registry) (language : String)
    (extendedLanguage script region variant extension : Option String) :
    Registry × Nat :=
  let key := subTagsKey language extendedLanguage script region variant extension
  match lookupKey r.table key with
  | some id => (r, id)
  | none =>
    let t := mkImpl language extendedLanguage script region variant extension
    (⟨r.table ++ [(key, r.objs.length)], r.objs ++ [t]⟩, r.objs.length)

/-- `LanguageTags.fromString` / the exported `languageTag` function: intern
by the lower-cased input text, running the pattern only on a miss; `none`
models the thrown `Invalid language tag` error. -/
def fromStringReg (r : Registry) (s : String) : Option (Registry × Nat) :=
  let key := lowerStr s
  match lookupKey r.table key with
  | some id => some (r, id)
  | none =>
    match tryParse key.data with
    | none => none
    | some g =>
      let t := mkFromGroups g
      some (⟨r.table ++ [(key, r.objs.length)], r.objs ++ [t]⟩, r.objs.length)

/-- `parent()` against the registry: drop the most specific present subtag
and re-resolve the remaining subtags through `fromSubTags`; `none` when the
object does not exist or has only a language. -/
def parentReg (r : Registry) (id : Nat) : Option (Registry × Nat) :=
  match r.objs[id]? with
  | none => none
  | some t =>
    if truthyOpt t.extension then
      some (fromSubTagsReg r t.language t.extendedLanguage t.script t.region t.variant none)
    else if truthyOpt t.variant then
      some (fromSubTagsReg r t.language t.extendedLanguage t.script t.region none none)
    else if truthyOpt t.region then
      some (fromSubTagsReg r t.language t.extendedLanguage t.script none none none)
    else if truthyOpt t.script then
      some (fromSubTagsReg r t.language t.extendedLanguage none none none none)
    else if truthyOpt t.extendedLanguage then
      some (fromSubTagsReg r t.language none none none none none)
    else none

/-!  The select facade of `Format.ts`.  The external ICU rendering engine
(`formatObject` delegates to `IntlMessageFormat`) is out of the modelled
core; it is abstracted as the identity on the chosen message template, which
is faithful for everything the selection logic decides: which option is
chosen, whether `other` is used, and whether the call throws. -/

/-- JS-truthiness filter applied when `selectObject` builds `optionsFormat`:
an option bound to `undefined` or to the empty string gets no formatter. -/
def truthyMsg (o : Option String) : Option String :=
  match o with
  | none => none
  | some m => if m = "" then none else some m

/-- The message of the thrown `NoMatchingSelectionError`. -/
def noMatchMessage (s : String) : String :=
  "Selection \"" ++ s ++ "\" does not match any of the available options"

/-- `selectObject(language, selector, options)` applied to a parameter
object: exact-key lookup of the selector result among the (truthy) options,
falling back to the `other` option, throwing when neither exists. -/
def selectObject (selector : P → String) (options : String → Option String)
    (params : P) : Except String String :=
  let s := selector params
  match truthyMsg (options s) with
  | some m => Except.ok m
  | none =>
    match truthyMsg (options "other") with
    | some m => Except.ok m
    | none => Except.error (noMatchMessage s)

/-- `select(language, options)`: `selectObject` with the identity
selector. -/
def select (options : String → Option String) (selection : String) :
    Except String String :=
  selectObject (fun s => s) options selection

/-!  Concrete tags used by the worked examples (each is the
`LanguageTagImpl` the library builds for the given subtags). -/

/-- The tag `de`. -/
def deTag : LanguageTag := mkImpl "de" none none none none none

/-- The tag `fr`. -/
def frTag : LanguageTag := mkImpl "fr" none none none none none

/-- The tag `it`. -/
def itTag : LanguageTag := mkImpl "it" none none none none none

/-- The tag `sp`. -/
def spTag : LanguageTag := mkImpl "sp" none none none none none

/-- The tag `de-CH`. -/
def deChTag : LanguageTag := mkImpl "de" none none (some "ch") none none

/-- The tag `de-CH-1901`. -/
def deCh1901Tag : LanguageTag := mkImpl "de" none none (some "ch") (some "1901") none

/-- The tag `fr-CH`. -/
def frChTag : LanguageTag := mkImpl "fr" none none (some "ch") none none

/-- The tag `zh-gan-Hans-US-nedis-x-twain`. -/
def zhFullTag : LanguageTag :=
  mkImpl "zh" (some "gan") (some "hans") (some "us") (some "nedis") (some "x-twain")

/-- The tag `zh-gan-Hans-US-nedis`. -/
def zh4Tag : LanguageTag :=
  mkImpl "zh" (some "gan") (some "hans") (some "us") (some "nedis") none

/-- The tag `zh-gan-Hans-US`. -/
def zh3Tag : LanguageTag :=
  mkImpl "zh" (some "gan") (some "hans") (some "us") none none

/-- The tag `zh-gan-Hans`. -/
def zh2Tag : LanguageTag := mkImpl "zh" (some "gan") (some "hans") none none none

/-- The tag `zh-gan`. -/
def zh1Tag : LanguageTag := mkImpl "zh" (some "gan") none none none none

/-- The tag `zh`. -/
def zh0Tag : LanguageTag := mkImpl "zh" none none none none none

/-- The degenerate tag with language `en` and region `19` that
`createFromString('en419')` builds (the capture `419` loses its first digit
to the `substr(1)` dash-stripping). -/
def en19Tag : LanguageTag := mkImpl "en" none none (some "19") none none

/-!  The worked translator example: English defaults, a full German
translation, a Swiss-German partial translation. -/

/-- Default messages `ok: OK, cancel: Cancel, welcome: Welcome`. -/
def exDefaultMsgs : LanguageTag → Msgs := fun _ k =>
  match k with
  | Key.ok => "OK"
  | Key.cancel => "Cancel"
  | Key.welcome => "Welcome"

/-- Full German translation `ok: OK, cancel: Abbrechen, welcome: Willkommen`. -/
def exDeMsgs : PartialMsgs := fun _ k =>
  match k with
  | Key.ok => some "OK"
  | Key.cancel => some "Abbrechen"
  | Key.welcome => some "Willkommen"

/-- Partial Swiss-German translation `welcome: Grüezi`. -/
def exDeChMsgs : PartialMsgs := fun _ k =>
  match k with
  | Key.welcome => some "Grüezi"
  | _ => none

/-- `translate(default).supporting('de', ...).partiallySupporting('de-CH', ...)`. -/
def exTranslator : Translator :=
  partiallySupporting (supporting (translate exDefaultMsgs) deTag exDeMsgs)
    deChTag exDeChMsgs

/-!  Invariant machinery for the `pickBestMatching` fold. -/

/-- Invariant of the `pickBestMatching` fold after processing `processed`:
either no candidate matched (all scores zero), or the accumulator holds the
first candidate attaining the running maximum, which is positive. -/
def PickInv (t : LanguageTag) (processed : List LanguageTag) :
    ℚ × Option LanguageTag → Prop
  | (q, none) => q = 0 ∧ ∀ o ∈ processed, equality t o = 0
  | (q, some c) =>
    q = equality t c ∧ 0 < q ∧
    (∃ pre post, processed = pre ++ c :: post ∧ ∀ o ∈ pre, equality t o < q) ∧
    ∀ o ∈ processed, equality t o ≤ q

/-- Scores are never negative. -/
theorem equality_nonneg (a b : LanguageTag) : 0 ≤ equality a b := by
  unfold equality
  split
  · exact le_refl 0
  · exact Rat.divInt_nonneg (by positivity) (by positivity)

theorem pickInv_step (t : LanguageTag) (processed : List LanguageTag)
    (acc : ℚ × Option LanguageTag) (o : LanguageTag)
    (h : PickInv t processed acc) :
    PickInv t (processed ++ [o]) (pickStep t acc o) := by
  obtain ⟨q, c⟩ := acc
  unfold pickStep
  by_cases hlt : q < equality t o
  · simp only [hlt, if_true]
    cases c with
    | none =>
      obtain ⟨hq, hall⟩ := h
      refine ⟨rfl, lt_of_le_of_lt (hq ▸ le_refl q) hlt, ⟨processed, [], rfl, ?_⟩, ?_⟩
      · intro x hx; exact (hall x hx) ▸ (hq ▸ hlt)
      · intro x hx
        rcases List.mem_append.mp hx with hx | hx
        · exact le_of_lt ((hall x hx) ▸ (hq ▸ hlt))
        · simp only [List.mem_singleton] at hx; exact hx ▸ le_refl _
    | some c =>
      obtain ⟨hq, hpos, ⟨pre, post, hsplit, hpre⟩, hall⟩ := h
      refine ⟨rfl, lt_trans hpos hlt, ⟨processed, [], rfl, ?_⟩, ?_⟩
      · intro x hx; exact lt_of_le_of_lt (hall x hx) hlt
      · intro x hx
        rcases List.mem_append.mp hx with hx | hx
        · exact le_of_lt (lt_of_le_of_lt (hall x hx) hlt)
        · simp only [List.mem_singleton] at hx; exact hx ▸ le_refl _
  · simp only [hlt, if_false]
    cases c with
    | none =>
      obtain ⟨hq, hall⟩ := h
      refine ⟨hq, ?_⟩
      intro x hx
      rcases List.mem_append.mp hx with hx | hx
      · exact hall x hx
      · simp only [List.mem_singleton] at hx
        subst hx
        have h0 := equality_nonneg t x
        have : equality t x ≤ q := not_lt.mp hlt
        exact le_antisymm (hq ▸ this) h0
    | some c =>
      obtain ⟨hq, hpos, ⟨pre, post, hsplit, hpre⟩, hall⟩ := h
      refine ⟨hq, hpos, ⟨pre, post ++ [o], ?_, hpre⟩, ?_⟩
      · rw [hsplit]; simp
      · intro x hx
        rcases List.mem_append.mp hx with hx | hx
        · exact hall x hx
        · simp only [List.mem_singleton] at hx; exact hx ▸ not_lt.mp hlt

theorem pickInv_foldl (t : LanguageTag) (l : List LanguageTag) :
    ∀ (processed : List LanguageTag) (acc : ℚ × Option LanguageTag),
      PickInv t processed acc →
      PickInv t (processed ++ l) (l.foldl (pickStep t) acc) := by
  induction l with
  | nil => intro processed acc h; simpa using h
  | cons x xs ih =>
    intro processed acc h
    have step := pickInv_step t processed acc x h
    have := ih (processed ++ [x]) (pickStep t acc x) step
    simpa [List.append_assoc] using this

/-- The fold of `pickBestMatching` satisfies the invariant over the whole
candidate list. -/
theorem pickInv_main (t : LanguageTag) (others : List LanguageTag) :
    PickInv t others (others.foldl (pickStep t) ((0 : ℚ), none)) := by
  have h0 : PickInv t [] ((0 : ℚ), (none : Option LanguageTag)) :=
    ⟨rfl, by intro o ho; cases ho⟩
  simpa using pickInv_foldl t others [] ((0 : ℚ), none) h0

/-!  Normalized tags: the fixed points of the constructor's case
normalization.  Every tag the library hands out is of this shape, since all
construction runs through the `LanguageTagImpl` constructor. -/

/-- A tag is normalized when re-running the constructor on its own fields
reproduces it. -/
def NormalizedTag (t : LanguageTag) : Prop :=
  mkImpl t.language t.extendedLanguage t.script t.region t.variant t.extension = t

instance (t : LanguageTag) : Decidable (NormalizedTag t) := by
  unfold NormalizedTag; infer_instance

theorem normalized_fields (t : LanguageTag) (hn : NormalizedTag t) :
    lowerStr t.language = t.language ∧
    transformOpt lowerStr t.extendedLanguage = t.extendedLanguage ∧
    transformOpt titleStr t.script = t.script ∧
    transformOpt upperStr t.region = t.region ∧
    transformOpt lowerStr t.variant = t.variant ∧
    transformOpt lowerStr t.extension = t.extension := by
  obtain ⟨lang, el, sc, rg, vr, ex⟩ := t
  simpa only [NormalizedTag, mkImpl, LanguageTag.mk.injEq] using hn

theorem truthyOpt_eq_isSome_of_transform (f : String → String) (x : Option String)
    (h : transformOpt f x = x) : truthyOpt x = x.isSome := by
  cases x with
  | none => rfl
  | some s =>
    by_cases hs : s = ""
    · subst hs; simp [transformOpt] at h
    · simp [truthyOpt, hs]

/-- On a normalized tag, `parent()` is plain field-dropping in the priority
order extension, variant, region, script, extended language. -/
theorem parentTag_normalized (t : LanguageTag) (hn : NormalizedTag t) :
    parentTag t =
      if t.extension.isSome then some { t with extension := none }
      else if t.variant.isSome then some { t with variant := none }
      else if t.region.isSome then some { t with region := none }
      else if t.script.isSome then some { t with script := none }
      else if t.extendedLanguage.isSome then some { t with extendedLanguage := none }
      else none := by
  obtain ⟨h1, h2, h3, h4, h5, h6⟩ := normalized_fields t hn
  rw [parentTag,
    truthyOpt_eq_isSome_of_transform _ _ h6,
    truthyOpt_eq_isSome_of_transform _ _ h5,
    truthyOpt_eq_isSome_of_transform _ _ h4,
    truthyOpt_eq_isSome_of_transform _ _ h3,
    truthyOpt_eq_isSome_of_transform _ _ h2]
  simp only [fromSubTagsPure, mkImpl, h1, h2, h3, h4, h5, transformOpt_none]
  obtain ⟨lang, el, sc, rg, vr, ex⟩ := t
  split_ifs with k1 k2 k3 k4 k5 <;>
    simp_all [Option.not_isSome_iff_eq_none]

/-!  Claim theorems. -/

/-- Claim C1 (code bug): `parse` does not accept exactly the spec's
BCP-47-subset grammar.  The pattern's region alternative for three digits is
missing its dash, so the valid `en-419` is rejected while the ungrammatical
`en419` is accepted, and the pattern's long variant alternative admits only
letters, so the grammatical `de-abc12` (variant of 5 alphanumerics) is
rejected; both matchers agree in rejecting the malformed `-abc`. -/
theorem c1_parse_grammar_divergence :
    codeAccepts "en-419" = false ∧ specGrammarAccepts "en-419" = true ∧
    codeAccepts "en419" = true ∧ specGrammarAccepts "en419" = false ∧
    codeAccepts "de-abc12" = false ∧ specGrammarAccepts "de-abc12" = true ∧
    codeAccepts "-abc" = false ∧ specGrammarAccepts "-abc" = false ∧
    parseTag "en419" = some en19Tag := by
  decide

/-- Claim C2 (code bug): the equality score is not confined to `[0,1]` and is
not `1.0` exactly on full agreement — subtags absent on both sides are
counted in the achieved points (strict equality of two `undefined`s) but not
in the possible points, so two identical bare-language tags score `63/32`.
The weights themselves behave as claimed, e.g. `de-CH` against `de` scores
`59/36`, a differing language scores `0`, and a full tag against itself
scores exactly `1`. -/
theorem c2_equality_score_exceeds_one :
    equality deTag deTag = Rat.divInt 63 32 ∧
    (1 : ℚ) < equality deTag deTag ∧
    equality deTag frTag = 0 ∧
    equality deChTag deTag = Rat.divInt 59 36 ∧
    equality zhFullTag zhFullTag = 1 := by
  decide

/-- Claim C3 (confirmed): `messagesFor` (here its uncached computational
core `buildMessages`, the value `messagesFor` caches and returns) starts
from the default messages applied to the requested tag and, when a best
match exists, folds the registered layers of the match's generalization
chain over them, most generic ancestor first, later layers overwriting and
unregistered links skipped; in the worked example `messagesFor('de-CH')` and
`messagesFor('de-CH-1901')` both yield
`ok: OK, cancel: Abbrechen, welcome: Grüezi` and `messagesFor('fr')` yields
the pure default set. -/
theorem c3_messages_layering :
    (∀ (tr : Translator) (req : LanguageTag),
      buildMessages tr req =
        applyLayers tr.translations req (tr.defaultMessages req)
          (chainF 6 (pickBestMatching req (supportedLanguages tr)))) ∧
    (parseTag "de" = some deTag ∧ parseTag "de-CH" = some deChTag ∧
      parseTag "de-CH-1901" = some deCh1901Tag ∧ parseTag "fr" = some frTag) ∧
    buildMessages exTranslator deChTag Key.ok = "OK" ∧
    buildMessages exTranslator deChTag Key.cancel = "Abbrechen" ∧
    buildMessages exTranslator deChTag Key.welcome = "Grüezi" ∧
    buildMessages exTranslator deCh1901Tag Key.ok = "OK" ∧
    buildMessages exTranslator deCh1901Tag Key.cancel = "Abbrechen" ∧
    buildMessages exTranslator deCh1901Tag Key.welcome = "Grüezi" ∧
    buildMessages exTranslator frTag Key.ok = "OK" ∧
    buildMessages exTranslator frTag Key.cancel = "Cancel" ∧
    buildMessages exTranslator frTag Key.welcome = "Welcome" := by
  refine ⟨?_, by decide, by decide, by decide, by decide, by decide, by decide,
    by decide, by decide, by decide, by decide⟩
  intro tr req
  exact buildRecursive_eq_applyLayers tr.translations (tr.defaultMessages req) req 6
    (pickBestMatching req (supportedLanguages tr))

/-- Claim C9 (confirmed): at runtime `supporting` is exactly
`partiallySupporting` — the translators it returns are definitionally the
same value and behave identically; the TypeScript completeness contract is
type-level only, so `supporting` also accepts a translation missing keys of
the default set without any check or error, the missing keys falling back,
as the concrete conjuncts show for a `supporting('de', welcome-only)`
layer. -/
theorem c9_supporting_equals_partiallySupporting (tr : Translator)
    (lang : LanguageTag) (m : PartialMsgs) :
    supporting tr lang m = partiallySupporting tr lang m ∧
    (∀ (req : LanguageTag) (k : Key),
      buildMessages (supporting tr lang m) req k =
        buildMessages (partiallySupporting tr lang m) req k) ∧
    buildMessages (supporting (translate exDefaultMsgs) deTag exDeChMsgs)
      deTag Key.cancel = "Cancel" ∧
    buildMessages (supporting (translate exDefaultMsgs) deTag exDeChMsgs)
      deTag Key.welcome = "Grüezi" :=
  ⟨rfl, fun _ _ => rfl, by decide, by decide⟩

/-- Claim C4 (confirmed): `pickBestMatching` returns `none` exactly when
every candidate scores zero against the requested tag; otherwise it returns
the first candidate attaining the strictly highest score (so ties keep the
first-seen candidate, and every candidate scores no higher).  Concretely,
for requested `de-CH-1901` over `[de, fr-CH, sp]` it returns `de`, and for
requested `it` it returns `none`. -/
theorem c4_pickBestMatching_best (t : LanguageTag) (others : List LanguageTag) :
    (pickBestMatching t others = none ↔ ∀ o ∈ others, equality t o = 0) ∧
    (∀ c, pickBestMatching t others = some c →
      0 < equality t c ∧
      (∀ o ∈ others, equality t o ≤ equality t c) ∧
      ∃ pre post, others = pre ++ c :: post ∧
        ∀ o ∈ pre, equality t o < equality t c) ∧
    pickBestMatching deCh1901Tag [deTag, frChTag, spTag] = some deTag ∧
    pickBestMatching itTag [deTag, frChTag, spTag] = none := by
  have hinv := pickInv_main t others
  rcases hfold : others.foldl (pickStep t) ((0 : ℚ), (none : Option LanguageTag))
    with ⟨q, c⟩
  rw [hfold] at hinv
  have hpick : pickBestMatching t others = c := by
    unfold pickBestMatching; rw [hfold]
  refine ⟨?_, ?_, by decide, by decide⟩
  · rw [hpick]
    cases c with
    | none =>
      simp only [PickInv] at hinv
      exact ⟨fun _ => hinv.2, fun _ => rfl⟩
    | some c =>
      simp only [PickInv] at hinv
      obtain ⟨hq, hpos, ⟨pre, post, hsplit, _⟩, _⟩ := hinv
      constructor
      · intro h; exact absurd h (by simp)
      · intro hall
        have hc : c ∈ others :=
          hsplit ▸ List.mem_append_right pre (List.mem_cons_self c post)
        rw [hall c hc] at hq
        rw [hq] at hpos
        exact absurd hpos (lt_irrefl 0)
  · intro c0 hres
    rw [hpick] at hres
    cases c with
    | none => exact absurd hres (by simp)
    | some c =>
      obtain rfl : c = c0 := by simpa using hres
      simp only [PickInv] at hinv
      obtain ⟨hq, hpos, ⟨pre, post, hsplit, hpre⟩, hall⟩ := hinv
      subst hq
      exact ⟨hpos, hall, pre, post, hsplit, hpre⟩

/-- Witness for claim C4: the characterization applied to the concrete
example `pickBestMatching(de-CH-1901, [de, fr-CH, sp]) = de`. -/
theorem c4_pickBestMatching_best_witness :
    0 < equality deCh1901Tag deTag ∧
    (∀ o ∈ [deTag, frChTag, spTag],
      equality deCh1901Tag o ≤ equality deCh1901Tag deTag) ∧
    ∃ pre post, [deTag, frChTag, spTag] = pre ++ deTag :: post ∧
      ∀ o ∈ pre, equality deCh1901Tag o < equality deCh1901Tag deTag :=
  (c4_pickBestMatching_best deCh1901Tag [deTag, frChTag, spTag]).2.1 deTag (by decide)

/-- Claim C5 (confirmed): on every (constructor-normalized) tag, `parent()`
drops the most specific present subtag in the priority order extension,
variant, region, script, extended language, and returns `none` exactly when
only the language is set; the parent chain of `zh-gan-Hans-US-nedis-x-twain`
is `zh-gan-Hans-US-nedis`, `zh-gan-Hans-US`, `zh-gan-Hans`, `zh-gan`, `zh`,
then `none`. -/
theorem c5_parent_drops_most_specific (t : LanguageTag) (hn : NormalizedTag t) :
    (parentTag t = none ↔ t.extendedLanguage = none ∧ t.script = none ∧
      t.region = none ∧ t.variant = none ∧ t.extension = none) ∧
    (∀ e, t.extension = some e → parentTag t = some { t with extension := none }) ∧
    (t.extension = none → ∀ v, t.variant = some v →
      parentTag t = some { t with variant := none }) ∧
    (t.extension = none → t.variant = none → ∀ r, t.region = some r →
      parentTag t = some { t with region := none }) ∧
    (t.extension = none → t.variant = none → t.region = none →
      ∀ sc, t.script = some sc → parentTag t = some { t with script := none }) ∧
    (t.extension = none → t.variant = none → t.region = none → t.script = none →
      ∀ el, t.extendedLanguage = some el →
      parentTag t = some { t with extendedLanguage := none }) ∧
    (parseTag "zh-gan-Hans-US-nedis-x-twain" = some zhFullTag ∧
      parentTag zhFullTag = some zh4Tag ∧ zh4Tag.tag = "zh-gan-Hans-US-nedis" ∧
      parentTag zh4Tag = some zh3Tag ∧ zh3Tag.tag = "zh-gan-Hans-US" ∧
      parentTag zh3Tag = some zh2Tag ∧ zh2Tag.tag = "zh-gan-Hans" ∧
      parentTag zh2Tag = some zh1Tag ∧ zh1Tag.tag = "zh-gan" ∧
      parentTag zh1Tag = some zh0Tag ∧ zh0Tag.tag = "zh" ∧
      parentTag zh0Tag = none) := by
  rw [parentTag_normalized t hn]
  refine ⟨?_, ?_, ?_, ?_, ?_, ?_, by decide⟩
  · constructor
    · intro h
      split_ifs at h with k1 k2 k3 k4 k5
      simp only [Option.not_isSome_iff_eq_none] at k1 k2 k3 k4 k5
      exact ⟨k5, k4, k3, k2, k1⟩
    · rintro ⟨h1, h2, h3, h4, h5⟩
      simp [h1, h2, h3, h4, h5]
  · intro e he; simp [he]
  · intro hx v hv; simp [hx, hv]
  · intro hx hv r hr; simp [hx, hv, hr]
  · intro hx hv hr sc hsc; simp [hx, hv, hr, hsc]
  · intro hx hv hr hsc el hel; simp [hx, hv, hr, hsc, hel]

/-- Witness for claim C5: the priority rule applied to the concrete full tag
`zh-gan-Hans-US-nedis-x-twain`, whose extension is dropped first. -/
theorem c5_parent_drops_most_specific_witness :
    parentTag zhFullTag = some { zhFullTag with extension := none } :=
  (c5_parent_drops_most_specific zhFullTag (by decide)).2.1 "x-twain" (by decide)

/-- The interning scenario refuting claim C6: request `en419`, then
`en419-nedis`, then the parent of the latter.  The parent interns under the
key `en-19` while the first request interned the very same subtag record
under the key `en419`, so two distinct objects exist for one subtag
sequence. -/
def internScenario : Option (LanguageTag × LanguageTag × Nat × Nat) :=
  (fromStringReg emptyRegistry "en419").bind fun p1 =>
  (fromStringReg p1.1 "en419-nedis").bind fun p2 =>
  (parentReg p2.1 p2.2).bind fun p3 =>
  (p3.1.objs[p1.2]?).bind fun t1 =>
  (p3.1.objs[p3.2]?).map fun t3 => (t1, t3, p1.2, p3.2)

/-- Claim C6 (code bug): interning does not guarantee one object per
case-insensitive subtag sequence.  Because the region pattern accepts three
digits without a dash, `parse('en419')` succeeds and stores the record
(language `en`, region `19`) under the key `en419`, while the parent of
`parse('en419-nedis')` stores the identical record under the reconstructed
key `en-19` — two distinct objects (indices 0 and 2) with equal subtags, and
`parse` cannot even reach the canonical text `en-19`.  The final conjunct
shows the case-variant half of the claim holding on `de-CH` / `DE-CH`, which
yield one shared object. -/
theorem c6_interning_duplicate_objects :
    internScenario = some (en19Tag, en19Tag, 0, 2) ∧
    (0 : Nat) ≠ 2 ∧
    fromStringReg emptyRegistry "en-19" = none ∧
    ((fromStringReg emptyRegistry "de-CH").bind fun p =>
      (fromStringReg p.1 "DE-CH").map fun q => (p.2, q.2)) = some (0, 0) := by
  decide

theorem messagesForCached_none [DecidableEq α] (t : α) (n : Nat) :
    messagesForCached (⟨none, n⟩ : CacheState α) t =
      ⟨⟨some (t, n), n + 1⟩, n, true⟩ := by
  simp [messagesForCached]

theorem messagesForCached_hit [DecidableEq α] (t : α) (m n : Nat) :
    messagesForCached (⟨some (t, m), n⟩ : CacheState α) t =
      ⟨⟨some (t, m), n⟩, m, false⟩ := by
  simp [messagesForCached]

theorem messagesForCached_stale [DecidableEq α] (l t : α) (m n : Nat)
    (h : l ≠ t) :
    messagesForCached (⟨some (l, m), n⟩ : CacheState α) t =
      ⟨⟨some (t, n), n + 1⟩, n, true⟩ := by
  simp [messagesForCached, h]

/-- Claim C7 (confirmed): the single-entry cache of `CachedMessageProvider`.
A second call with the identical requested tag returns the identical object
without invoking the build step and leaves the state unchanged; a call with
a different tag invokes the build step, replaces the sole cache entry with
the new pair, and its result is not the previously cached object. -/
theorem c7_single_entry_cache (α : Type) [DecidableEq α] (s : CacheState α)
    (t u : α) (hwf : CacheWF s) (hne : t ≠ u) :
    (messagesForCached (messagesForCached s t).state t).result =
      (messagesForCached s t).result ∧
    (messagesForCached (messagesForCached s t).state t).didBuild = false ∧
    (messagesForCached (messagesForCached s t).state t).state =
      (messagesForCached s t).state ∧
    (messagesForCached (messagesForCached s t).state u).didBuild = true ∧
    (messagesForCached (messagesForCached s t).state u).state.cache =
      some (u, (messagesForCached (messagesForCached s t).state u).result) ∧
    (messagesForCached (messagesForCached s t).state u).result ≠
      (messagesForCached s t).result := by
  obtain ⟨c, n⟩ := s
  rcases c with _ | ⟨l, m⟩
  · rw [messagesForCached_none, messagesForCached_hit,
      messagesForCached_stale t u n (n + 1) hne]
    refine ⟨rfl, rfl, rfl, rfl, rfl, ?_⟩
    show n + 1 ≠ n
    omega
  · have hmn : m < n := hwf l m rfl
    by_cases hl : l = t
    · subst hl
      rw [messagesForCached_hit, messagesForCached_hit,
        messagesForCached_stale l u m n hne]
      refine ⟨rfl, rfl, rfl, rfl, rfl, ?_⟩
      show (n : Nat) ≠ (m : Nat)
      omega
    · rw [messagesForCached_stale l t m n hl, messagesForCached_hit,
        messagesForCached_stale t u n (n + 1) hne]
      refine ⟨rfl, rfl, rfl, rfl, rfl, ?_⟩
      show n + 1 ≠ n
      omega

/-- Witness for claim C7: starting from an empty cache, the second request
for tag `0` is served from the cache and a following request for tag `1`
rebuilds. -/
theorem c7_single_entry_cache_witness :
    (messagesForCached (messagesForCached (⟨none, 0⟩ : CacheState Nat) 0).state 0).didBuild
      = false ∧
    (messagesForCached (messagesForCached (⟨none, 0⟩ : CacheState Nat) 0).state 1).didBuild
      = true :=
  ⟨(c7_single_entry_cache Nat ⟨none, 0⟩ 0 1 (by simp [CacheWF]) (by decide)).2.1,
   (c7_single_entry_cache Nat ⟨none, 0⟩ 0 1 (by simp [CacheWF]) (by decide)).2.2.2.1⟩

theorem truthyMsg_some_ne (m : String) (h : m ≠ "") :
    truthyMsg (some m) = some m := by
  simp only [truthyMsg, if_neg h]

theorem truthyMsg_ne_empty (o : Option String) (m : String)
    (h : truthyMsg o = some m) : m ≠ "" := by
  cases o with
  | none => exact absurd h (by simp [truthyMsg])
  | some s =>
    simp only [truthyMsg] at h
    split_ifs at h with hs
    all_goals simp_all

deriving instance DecidableEq for Except

/-- Options map refuting claim C8 as stated: the key `a` matches exactly,
but its message is the empty string. -/
def c8Options : String → Option String := fun s =>
  if s = "a" then some "" else if s = "other" then some "x" else none

/-- Claim C8 counterexample: with options mapping `a` to the empty string
and `other` to `x`, the selection `a` does not pick the exactly matching
message (the empty string); the code falls back to `other` instead, because
the empty string fails the JS truthiness test when `optionsFormat` is
built. -/
theorem c8_exact_match_counterexample :
    c8Options "a" = some "" ∧
    select c8Options "a" = Except.ok "x" ∧
    select c8Options "a" ≠ Except.ok "" := by
  decide

/-- Claim C8 (corrected): the function returned by `select` (and
`selectObject`, which coincides with it on the selector's result) picks the
message whose key exactly equals the selection string provided that message
is non-empty; an option bound to `undefined` or to the empty string counts
as absent.  When no such exact match exists it falls back to a (non-empty)
`other` option without throwing, and with no usable `other` it fails with
the `NoMatchingSelectionError` message. -/
theorem c8_select_fallback (options : String → Option String) (s : String) :
    (∀ m, options s = some m → m ≠ "" → select options s = Except.ok m) ∧
    (truthyMsg (options s) = none → ∀ m, options "other" = some m → m ≠ "" →
      select options s = Except.ok m) ∧
    (truthyMsg (options s) = none → truthyMsg (options "other") = none →
      select options s = Except.error (noMatchMessage s)) ∧
    (∀ (P : Type) (sel : P → String) (p : P),
      selectObject sel options p = select options (sel p)) := by
  refine ⟨?_, ?_, ?_, fun P sel p => rfl⟩
  · intro m hm hmne
    simp only [select, selectObject, hm, truthyMsg_some_ne m hmne]
  · intro h m hm hmne
    simp only [select, selectObject, h, hm, truthyMsg_some_ne m hmne]
  · intro h hother
    simp only [select, selectObject, h, hother]

/-- Options with a single exactly matching key, for the C8 witness. -/
def c8HitOptions : String → Option String := fun k =>
  if k = "greet" then some "hello" else none

/-- Options with only an `other` entry, for the C8 witness. -/
def c8OtherOptions : String → Option String := fun k =>
  if k = "other" then some "fallback" else none

/-- Witness for claim C8: an exact non-empty match is returned, an unmatched
key falls back to `other`, and with no options at all the error is
thrown. -/
theorem c8_select_fallback_witness :
    select c8HitOptions "greet" = Except.ok "hello" ∧
    select c8OtherOptions "miss" = Except.ok "fallback" ∧
    select (fun _ => none) "miss" = Except.error (noMatchMessage "miss") :=
  ⟨(c8_select_fallback c8HitOptions "greet").1 "hello" (by decide) (by decide),
   (c8_select_fallback c8OtherOptions "miss").2.1 (by decide) "fallback"
     (by decide) (by decide),
   (c8_select_fallback (fun _ => none) "miss").2.2.1 (by decide) (by decide)⟩

/-- Claim C10 (confirmed): `selectObject` treats an option whose message is
the empty string as absent.  When the selector yields such a key the result
is never the empty string: the call falls back to a usable `other` option
when one exists and otherwise throws the `NoMatchingSelectionError`
message. -/
theorem c10_empty_message_option_is_absent (P : Type) (sel : P → String)
    (options : String → Option String) (p : P)
    (h : options (sel p) = some "") :
    (∀ m, selectObject sel options p = Except.ok m → m ≠ "") ∧
    (∀ m, options "other" = some m → m ≠ "" →
      selectObject sel options p = Except.ok m) ∧
    (truthyMsg (options "other") = none →
      selectObject sel options p = Except.error (noMatchMessage (sel p))) := by
  have hempty : truthyMsg (options (sel p)) = none := by
    rw [h]; rfl
  refine ⟨?_, ?_, ?_⟩
  · intro m hok
    simp only [selectObject, hempty] at hok
    cases hother : truthyMsg (options "other") with
    | none => rw [hother] at hok; exact absurd hok (by simp)
    | some m' =>
      rw [hother] at hok
      injection hok with h'
      exact h' ▸ truthyMsg_ne_empty (options "other") m' hother
  · intro m hm hmne
    simp only [selectObject, hempty, hm, truthyMsg_some_ne m hmne]
  · intro hother
    simp only [selectObject, hempty, hother]

/-- Options map for the C10 witness: `empty` is bound to the empty string,
`other` to `x`. -/
def c10Options : String → Option String := fun k =>
  if k = "empty" then some "" else if k = "other" then some "x" else none

/-- Witness for claim C10: selecting the empty-messaged key `empty` falls
back to the `other` message. -/
theorem c10_empty_message_option_is_absent_witness :
    selectObject (fun s : String => s) c10Options "empty" = Except.ok "x" :=
  (c10_empty_message_option_is_absent String (fun s => s) c10Options "empty"
    (by decide)).2.1 "x" (by decide) (by decide)

end TypedIntl
